import Mathlib

/-!
Verification development for the intelephense-server core: the index
coordinator (`Indexer` in the server module), the file discovery layer
(`Workspace` / `FileSearchProvider` / `LocalFileSystem` in workspace.ts)
and the JSON cache (`Cache` in cache.ts).

The embedding is shallow: the JavaScript functions are translated into
executable Lean definitions.  External collaborators (the symbol engine,
the filesystem, the glob library, the clock) are modelled as environment
fields; every interaction with them is recorded as an explicit `Effect`
so that frame conditions can be stated.  JavaScript numbers used here
(file sizes, timestamps, symbol counts) are non-negative integers in the
program, so they are embedded as `Nat`.
-/

/-- `FileInfo` from workspace.ts: uri, mtime in ms, size in bytes. -/
structure FileInfo where
  uri : String
  modified : Nat
  size : Nat
deriving Repr, DecidableEq

/-- `IndexResult` from the server module (lines 460-467).  The source field
`wasCancelled` is optional and only ever set to `true`, hence `Option Bool`
with `none` meaning the field was never assigned. -/
structure IndexResult where
  totalFileCount : Nat
  indexedFileCount : Nat
  forgottenFileCount : Nat
  symbolCount : Nat
  elapsed : Nat
  wasCancelled : Option Bool
deriving Repr, DecidableEq

/-- Observable interactions of the coordinator with its collaborators:
querying `Intelephense.knownDocuments()`, reading a file through
`Workspace.getDocument`, submitting a document to
`Intelephense.discoverSymbols`, and `Intelephense.forget`. -/
inductive Effect where
  | queryKnownDocs
  | read (uri : String)
  | discover (uri : String) (symbols : Nat)
  | forget (uri : String)
deriving Repr, DecidableEq

/-- Environment of one `Indexer.indexWorkspace` run.  `files` is the value
the promise `Workspace.findFiles(...)` resolves to (the claims about the
walk quantify over the files returned by discovery); `getDocument` is the
resolved value of `Workspace.getDocument` per uri (`none` models the
`undefined` produced by its catch handler); `discoverSymbols` is the
engine's per-document symbol count, keyed by uri since the document text
is itself a function of the uri; `cancelAt` is the cooperative
cancellation schedule: `some k` means `token.isCancellationRequested`
reads true from the k-th observation point on, `none` means the token is
never cancelled; `elapsed` is the value of the external clock difference. -/
structure IndexEnv where
  knownDocs : List String
  timestamp : Nat
  maxFileSize : Nat
  files : List FileInfo
  getDocument : String → Option String
  discoverSymbols : String → Nat
  cancelAt : Option Nat
  elapsed : Nat

/-- `token.isCancellationRequested` at observation point `i`:
loop iteration `n` observes at point `n`, the two post-loop checks
(source lines 536 and 540) observe at point `files.length`. -/
def IndexEnv.cancelledAt (env : IndexEnv) (i : Nat) : Bool :=
  match env.cancelAt with
  | none => false
  | some k => k ≤ i

/-- `new Set(list)` of JavaScript: deduplicate keeping the first
occurrence of each element, preserving insertion order. -/
def jsSetAux (seen : List String) : List String → List String
  | [] => []
  | a :: rest =>
    if seen.contains a then jsSetAux seen rest
    else a :: jsSetAux (a :: seen) rest

/-- `Array.from(new Set(l))`. -/
def jsSetOfList (l : List String) : List String := jsSetAux [] l

/-- Accumulated output of the file walk of `indexWorkspace`
(source lines 513-533): `indexedFileCount` and `symbolCount` increments,
the final state of the working `known` set, and the effects emitted. -/
structure LoopOut where
  indexedFileCount : Nat
  symbolCount : Nat
  known : List String
  effects : List Effect
deriving Repr

/-- Body of `doc = await Workspace.getDocument(file.uri); if (doc) ...`
(source lines 528-532): the read always happens; on success the file is
submitted and the counters grow. Returns (indexed increment, symbol
increment, effects). -/
def readSubmit (env : IndexEnv) (f : FileInfo) : Nat × Nat × List Effect :=
  match env.getDocument f.uri with
  | some _ =>
    (1, env.discoverSymbols f.uri,
      [Effect.read f.uri, Effect.discover f.uri (env.discoverSymbols f.uri)])
  | none => (0, 0, [Effect.read f.uri])

/-- The `for` loop of `indexWorkspace` (source lines 515-533), walking
`files` from index `n` with working known-set `known`.  Branch structure
follows the source exactly: a known uri is deleted from the working set
and skipped when unchanged (`modified < timestamp`); the size cap is
tested only in the `else if` branch, i.e. only for files whose uri is not
in the working known set. -/
def runFiles (env : IndexEnv) : List FileInfo → Nat → List String → LoopOut
  | [], _, known => ⟨0, 0, known, []⟩
  | f :: rest, n, known =>
    if env.cancelledAt n then ⟨0, 0, known, []⟩
    else if known.contains f.uri then
      if f.modified < env.timestamp then
        runFiles env rest (n + 1) (known.erase f.uri)
      else
        let s := readSubmit env f
        let out := runFiles env rest (n + 1) (known.erase f.uri)
        ⟨s.1 + out.indexedFileCount, s.2.1 + out.symbolCount, out.known,
          s.2.2 ++ out.effects⟩
    else if env.maxFileSize < f.size then
      runFiles env rest (n + 1) known
    else
      let s := readSubmit env f
      let out := runFiles env rest (n + 1) known
      ⟨s.1 + out.indexedFileCount, s.2.1 + out.symbolCount, out.known,
        s.2.2 ++ out.effects⟩

namespace Indexer

/-- The `IndexResult` literal of source lines 479-485 together with the
assignment `result.wasCancelled = true` of the decline path (line 491):
what `indexWorkspace` returns immediately when a run is active and
`restartIfInProgress` is falsy.  `elapsed` stays at its initial 0 because
the source returns before computing it. -/
def declineResult : IndexResult :=
  { totalFileCount := 0, indexedFileCount := 0, forgottenFileCount := 0,
    symbolCount := 0, elapsed := 0, wasCancelled := some true }

/-- Source lines 498-544: the body of a run that actually starts.  The
known set is `new Set(knownDocs.documents)`; after the walk,
`forgottenFileCount` is set to the remaining known size unconditionally
(line 535) and the forget pass runs only when the token is not cancelled
and the count is positive (lines 536-538).  `totalFileCount` is
initialized to 0 at line 480 and never assigned anywhere else in the
source, so it stays 0 in the returned result. -/
def indexRun (env : IndexEnv) : IndexResult × List Effect :=
  let known := jsSetOfList env.knownDocs
  let out := runFiles env env.files 0 known
  let cancelledEnd := env.cancelledAt env.files.length
  let forgetEffs :=
    if !cancelledEnd && 0 < out.known.length then out.known.map Effect.forget
    else []
  let r : IndexResult :=
    { totalFileCount := 0,
      indexedFileCount := out.indexedFileCount,
      forgottenFileCount := out.known.length,
      symbolCount := out.symbolCount,
      elapsed := env.elapsed,
      wasCancelled := if cancelledEnd then some true else none }
  (r, Effect.queryKnownDocs :: (out.effects ++ forgetEffs))

/-- `Indexer.indexWorkspace` (source lines 477-546).  The module-level
variable `indexing` (presence of the `CancellationTokenSource`) is the
`Bool` state threaded through: the decline path (lines 489-492) returns
before touching anything; otherwise the run (after `cancelIndexing()`
when restarting) assigns `indexing = new CancellationTokenSource()` at
line 498, and no statement of the function ever clears it again, so the
state component of a completed run is `true`.  Result triple: the
returned `IndexResult`, the final value of `indexing`, and the emitted
effects. -/
def indexWorkspace (restartIfInProgress : Bool) (indexing : Bool)
    (env : IndexEnv) : IndexResult × Bool × List Effect :=
  if indexing && !restartIfInProgress then (declineResult, indexing, [])
  else
    let ro := indexRun env
    (ro.1, true, ro.2)

/-- `Indexer.indexFiles` (source lines 562-582), applied to the list of
`FileInfo` the promise `Workspace.filterFiles(...)` resolves to.  For each
file within the size cap (`file.size <= maxFileSize`) the document is
read and then submitted via `discover(doc)`; the source calls `discover`
even when `getDocument` resolved to `undefined`, so the submission effect
is emitted unconditionally in that branch. -/
def indexFiles (env : IndexEnv) : List FileInfo → List Effect
  | [] => []
  | f :: rest =>
    if f.size ≤ env.maxFileSize then
      Effect.read f.uri :: Effect.discover f.uri (env.discoverSymbols f.uri) ::
        indexFiles env rest
    else indexFiles env rest

end Indexer

/-! ### Helper lemmas about the walk -/

/-- The indexed-file counter grows by at most one per discovered file. -/
theorem runFiles_indexed_le (env : IndexEnv) :
    ∀ (fs : List FileInfo) (n : Nat) (known : List String),
      (runFiles env fs n known).indexedFileCount ≤ fs.length := by
  intro fs
  induction fs with
  | nil => intro n known; simp [runFiles]
  | cons f rest ih =>
    intro n known
    simp only [runFiles, List.length_cons]
    split
    · exact Nat.le_add_right 0 (rest.length + 1) |>.trans (by omega)
    · split
      · split
        · exact (ih (n + 1) (known.erase f.uri)).trans (Nat.le_succ _)
        · have h1 := ih (n + 1) (known.erase f.uri)
          cases hdoc : env.getDocument f.uri <;>
            simp [readSubmit, hdoc] <;> omega
      · split
        · exact (ih (n + 1) known).trans (Nat.le_succ _)
        · have h1 := ih (n + 1) known
          cases hdoc : env.getDocument f.uri <;>
            simp [readSubmit, hdoc] <;> omega

/-! ### Concrete environments used by closed theorems -/

/-- Empty workspace: no known documents, discovery yields no files. -/
def envEmpty : IndexEnv :=
  { knownDocs := [], timestamp := 0, maxFileSize := 1000000, files := [],
    getDocument := fun _ => none, discoverSymbols := fun _ => 0,
    cancelAt := none, elapsed := 7 }

/-- Claim C6 counterexample environment: discovery returns two files,
neither known to the engine; the first is below the 1000000-byte cap and
readable, the second exceeds it. -/
def envTwoFiles : IndexEnv :=
  { knownDocs := [], timestamp := 0, maxFileSize := 1000000,
    files := [⟨"file:///w/a.php", 5, 10⟩, ⟨"file:///w/big.php", 5, 2000000⟩],
    getDocument := fun u => if u == "file:///w/a.php" then some "<?php" else none,
    discoverSymbols := fun _ => 3, cancelAt := none, elapsed := 0 }

/-- Claim C7: if a run is active (`indexing = true`) and
`indexWorkspace` is called with `restartIfInProgress = false`, it returns
the all-zero `IndexResult` with `wasCancelled = true`, emits no effect
(no known-documents query, no read, no submission, no forget) and leaves
the active-run state unchanged. -/
theorem indexWorkspace_decline_frame (env : IndexEnv) :
    Indexer.indexWorkspace false true env = (Indexer.declineResult, true, []) := rfl

/-- Claim C2 (code divergence): starting from the idle state, a run of
`indexWorkspace` that completes normally (`wasCancelled` unset) leaves the
active-run state SET (`indexing` is never cleared by the source), so an
immediately following `indexWorkspace false` call takes the decline path
instead of starting a fresh run. -/
theorem indexWorkspace_state_never_cleared :
    (Indexer.indexWorkspace false false envEmpty).1.wasCancelled = none ∧
    (Indexer.indexWorkspace false false envEmpty).2.1 = true ∧
    Indexer.indexWorkspace false (Indexer.indexWorkspace false false envEmpty).2.1
      envEmpty = (Indexer.declineResult, true, []) := by
  refine ⟨rfl, rfl, ?_⟩
  rfl

/-- Claim C6 counterexample: a completed run that discovered two files
(one of them oversize) reports `totalFileCount = 0`, not 2, and its
`indexedFileCount = 1` exceeds `totalFileCount`. -/
theorem totalFileCount_cex :
    envTwoFiles.files.length = 2 ∧
    (Indexer.indexWorkspace false false envTwoFiles).1.totalFileCount = 0 ∧
    (Indexer.indexWorkspace false false envTwoFiles).1.indexedFileCount = 1 ∧
    ¬ (Indexer.indexWorkspace false false envTwoFiles).1.indexedFileCount ≤
        (Indexer.indexWorkspace false false envTwoFiles).1.totalFileCount := by
  refine ⟨rfl, rfl, rfl, ?_⟩
  decide

/-- Claim C6 amended: `totalFileCount` is 0 in every `IndexResult`
returned by `indexWorkspace` (the counter is never incremented); oversize
files outside the known set are excluded from `indexedFileCount`, which is
bounded by the number of discovered files, not by `totalFileCount`. -/
theorem totalFileCount_amended (restart indexing : Bool) (env : IndexEnv) :
    (Indexer.indexWorkspace restart indexing env).1.totalFileCount = 0 ∧
    (Indexer.indexWorkspace restart indexing env).1.indexedFileCount ≤
      env.files.length := by
  unfold Indexer.indexWorkspace
  split
  · exact ⟨rfl, Nat.zero_le _⟩
  · exact ⟨rfl, runFiles_indexed_le env env.files 0 (jsSetOfList env.knownDocs)⟩

/-- Uri `u` is matched by no element of `fs`: `u` survives the walk in the
working known set (it is in `K` and not in the discovered set `D`). -/
def notDiscovered (fs : List FileInfo) (u : String) : Bool :=
  fs.all (fun f => u != f.uri)

/-- Recognizer for forget effects. -/
def isForget : Effect → Bool
  | .forget _ => true
  | _ => false

theorem IndexEnv.cancelledAt_none {env : IndexEnv} (hc : env.cancelAt = none)
    (i : Nat) : env.cancelledAt i = false := by
  simp [IndexEnv.cancelledAt, hc]

theorem jsSetAux_subset {x : String} :
    ∀ (l seen : List String), x ∈ jsSetAux seen l → x ∈ l := by
  intro l
  induction l with
  | nil => intro seen h; simp [jsSetAux] at h
  | cons a rest ih =>
    intro seen h
    by_cases hs : seen.contains a
    · rw [jsSetAux, if_pos hs] at h
      exact List.mem_cons_of_mem a (ih seen h)
    · rw [jsSetAux, if_neg hs] at h
      rcases List.mem_cons.mp h with h1 | h1
      · exact h1 ▸ List.mem_cons_self a rest
      · exact List.mem_cons_of_mem a (ih (a :: seen) h1)

theorem jsSetAux_not_seen {x : String} :
    ∀ (l seen : List String), x ∈ jsSetAux seen l → x ∉ seen := by
  intro l
  induction l with
  | nil => intro seen h; simp [jsSetAux] at h
  | cons a rest ih =>
    intro seen h
    by_cases hs : seen.contains a
    · rw [jsSetAux, if_pos hs] at h
      exact ih seen h
    · rw [jsSetAux, if_neg hs] at h
      rcases List.mem_cons.mp h with h1 | h1
      · subst h1
        simpa using hs
      · intro hx
        exact ih (a :: seen) h1 (List.mem_cons_of_mem a hx)

theorem jsSetAux_nodup : ∀ (l seen : List String), (jsSetAux seen l).Nodup := by
  intro l
  induction l with
  | nil => intro seen; simp [jsSetAux]
  | cons a rest ih =>
    intro seen
    simp only [jsSetAux]
    split
    · exact ih seen
    · refine List.nodup_cons.mpr ⟨fun hmem => ?_, ih (a :: seen)⟩
      exact jsSetAux_not_seen rest (a :: seen) hmem (List.mem_cons_self a seen)

theorem jsSetOfList_nodup (l : List String) : (jsSetOfList l).Nodup :=
  jsSetAux_nodup l []

theorem jsSetOfList_subset {x : String} {l : List String}
    (h : x ∈ jsSetOfList l) : x ∈ l :=
  jsSetAux_subset l [] h

theorem notDiscovered_nil (u : String) : notDiscovered [] u = true := rfl

theorem notDiscovered_cons (f : FileInfo) (rest : List FileInfo) (u : String) :
    notDiscovered (f :: rest) u = ((u != f.uri) && notDiscovered rest u) := by
  simp [notDiscovered]

/-- After an uncancelled walk over `fs`, the working known set holds
exactly the uris of the initial set matched by no discovered file. -/
theorem runFiles_known_filter (env : IndexEnv) (hc : env.cancelAt = none) :
    ∀ (fs : List FileInfo) (n : Nat) (known : List String), known.Nodup →
      (runFiles env fs n known).known = known.filter (notDiscovered fs) := by
  intro fs
  induction fs with
  | nil =>
    intro n known hnd
    rw [runFiles]
    exact (List.filter_eq_self.mpr fun x _ => rfl).symm
  | cons f rest ih =>
    intro n known hnd
    have hstep : ∀ known1 : List String,
        List.filter (notDiscovered rest)
            (List.filter (fun x => x != f.uri) known1) =
          List.filter (notDiscovered (f :: rest)) known1 := by
      intro known1
      rw [List.filter_filter]
      exact List.filter_congr fun x _ => by
        rw [notDiscovered_cons, Bool.and_comm]
    have hskip : f.uri ∉ known →
        List.filter (notDiscovered rest) known =
          List.filter (notDiscovered (f :: rest)) known := by
      intro hmem
      exact List.filter_congr fun x hx => by
        have hxne : x ≠ f.uri := fun he => hmem (he ▸ hx)
        rw [notDiscovered_cons, bne_iff_ne.mpr hxne, Bool.true_and]
    simp only [runFiles, IndexEnv.cancelledAt_none hc, Bool.false_eq_true,
      if_false]
    by_cases hk : known.contains f.uri
    · rw [if_pos hk]
      have herase : known.erase f.uri = known.filter (fun x => x != f.uri) :=
        hnd.erase_eq_filter f.uri
      by_cases hm : f.modified < env.timestamp
      · rw [if_pos hm, ih (n + 1) (known.erase f.uri) (hnd.erase f.uri),
          herase, hstep known]
      · rw [if_neg hm]
        show (runFiles env rest (n + 1) (known.erase f.uri)).known = _
        rw [ih (n + 1) (known.erase f.uri) (hnd.erase f.uri), herase,
          hstep known]
    · rw [if_neg hk]
      have hmem : f.uri ∉ known := by simpa using Bool.of_not_eq_true hk
      by_cases hsz : env.maxFileSize < f.size
      · rw [if_pos hsz, ih (n + 1) known hnd, hskip hmem]
      · rw [if_neg hsz]
        show (runFiles env rest (n + 1) known).known = _
        rw [ih (n + 1) known hnd, hskip hmem]

/-- The walk itself never emits a forget instruction. -/
theorem runFiles_no_forget (env : IndexEnv) :
    ∀ (fs : List FileInfo) (n : Nat) (known : List String) (u : String),
      Effect.forget u ∉ (runFiles env fs n known).effects := by
  intro fs
  induction fs with
  | nil => intro n known u; simp [runFiles]
  | cons f rest ih =>
    intro n known u
    rw [runFiles]
    by_cases hcan : env.cancelledAt n = true
    · rw [if_pos hcan]
      simp
    · rw [if_neg hcan]
      by_cases hk : known.contains f.uri = true
      · rw [if_pos hk]
        by_cases hm : f.modified < env.timestamp
        · rw [if_pos hm]
          exact ih (n + 1) (known.erase f.uri) u
        · rw [if_neg hm]
          show Effect.forget u ∉ (readSubmit env f).2.2 ++
            (runFiles env rest (n + 1) (known.erase f.uri)).effects
          intro h
          rcases List.mem_append.mp h with h1 | h1
          · cases hdoc : env.getDocument f.uri <;> simp [readSubmit, hdoc] at h1
          · exact ih (n + 1) (known.erase f.uri) u h1
      · rw [if_neg hk]
        by_cases hsz : env.maxFileSize < f.size
        · rw [if_pos hsz]
          exact ih (n + 1) known u
        · rw [if_neg hsz]
          show Effect.forget u ∉ (readSubmit env f).2.2 ++
            (runFiles env rest (n + 1) known).effects
          intro h
          rcases List.mem_append.mp h with h1 | h1
          · cases hdoc : env.getDocument f.uri <;> simp [readSubmit, hdoc] at h1
          · exact ih (n + 1) known u h1

/-- Every read of the walk is justified: the file either fits under the
size cap, or its uri belongs to the known-document snapshot and its
modification time is at or after the snapshot timestamp. -/
theorem runFiles_read_mem (env : IndexEnv) :
    ∀ (fs : List FileInfo) (n : Nat) (known : List String) (u : String),
      (∀ x ∈ known, x ∈ env.knownDocs) →
      Effect.read u ∈ (runFiles env fs n known).effects →
      ∃ f, f ∈ fs ∧ f.uri = u ∧
        (f.size ≤ env.maxFileSize ∨
          (f.uri ∈ env.knownDocs ∧ env.timestamp ≤ f.modified)) := by
  intro fs
  induction fs with
  | nil => intro n known u hsub h; simp [runFiles] at h
  | cons f rest ih =>
    intro n known u hsub h
    have hsub1 : ∀ x ∈ known.erase f.uri, x ∈ env.knownDocs :=
      fun x hx => hsub x (List.mem_of_mem_erase hx)
    rw [runFiles] at h
    by_cases hcan : env.cancelledAt n = true
    · rw [if_pos hcan] at h
      simp at h
    · rw [if_neg hcan] at h
      by_cases hk : known.contains f.uri = true
      · rw [if_pos hk] at h
        by_cases hm : f.modified < env.timestamp
        · rw [if_pos hm] at h
          rcases ih (n + 1) (known.erase f.uri) u hsub1 h with ⟨g, hg, hrest⟩
          exact ⟨g, List.mem_cons_of_mem f hg, hrest⟩
        · rw [if_neg hm] at h
          change Effect.read u ∈ (readSubmit env f).2.2 ++
            (runFiles env rest (n + 1) (known.erase f.uri)).effects at h
          rcases List.mem_append.mp h with h1 | h1
          · have huri : u = f.uri := by
              cases hdoc : env.getDocument f.uri <;>
                simpa [readSubmit, hdoc] using h1
            exact ⟨f, List.mem_cons_self f rest, huri.symm,
              Or.inr ⟨hsub f.uri (by simpa using hk), Nat.le_of_not_lt hm⟩⟩
          · rcases ih (n + 1) (known.erase f.uri) u hsub1 h1 with ⟨g, hg, hrest⟩
            exact ⟨g, List.mem_cons_of_mem f hg, hrest⟩
      · rw [if_neg hk] at h
        by_cases hsz : env.maxFileSize < f.size
        · rw [if_pos hsz] at h
          rcases ih (n + 1) known u hsub h with ⟨g, hg, hrest⟩
          exact ⟨g, List.mem_cons_of_mem f hg, hrest⟩
        · rw [if_neg hsz] at h
          change Effect.read u ∈ (readSubmit env f).2.2 ++
            (runFiles env rest (n + 1) known).effects at h
          rcases List.mem_append.mp h with h1 | h1
          · have huri : u = f.uri := by
              cases hdoc : env.getDocument f.uri <;>
                simpa [readSubmit, hdoc] using h1
            exact ⟨f, List.mem_cons_self f rest, huri.symm,
              Or.inl (Nat.le_of_not_lt hsz)⟩
          · rcases ih (n + 1) known u hsub h1 with ⟨g, hg, hrest⟩
            exact ⟨g, List.mem_cons_of_mem f hg, hrest⟩

/-- Reads of a started run are justified (size cap or known-and-changed). -/
theorem indexRun_read_mem (env : IndexEnv) (u : String)
    (h : Effect.read u ∈ (Indexer.indexRun env).2) :
    ∃ f, f ∈ env.files ∧ f.uri = u ∧
      (f.size ≤ env.maxFileSize ∨
        (f.uri ∈ env.knownDocs ∧ env.timestamp ≤ f.modified)) := by
  simp only [Indexer.indexRun] at h
  rcases List.mem_cons.mp h with h1 | h1
  · simp at h1
  · rcases List.mem_append.mp h1 with h2 | h2
    · exact runFiles_read_mem env env.files 0 (jsSetOfList env.knownDocs) u
        (fun x hx => jsSetOfList_subset hx) h2
    · exfalso
      split at h2
      · rcases List.mem_map.mp h2 with ⟨x, _, hx⟩
        exact Effect.noConfusion hx
      · simp at h2

theorem indexFiles_read_mem (env : IndexEnv) :
    ∀ (fs : List FileInfo) (u : String),
      Effect.read u ∈ Indexer.indexFiles env fs →
      ∃ f, f ∈ fs ∧ f.uri = u ∧ f.size ≤ env.maxFileSize := by
  intro fs
  induction fs with
  | nil => intro u h; simp [Indexer.indexFiles] at h
  | cons f rest ih =>
    intro u h
    rw [Indexer.indexFiles] at h
    by_cases hsz : f.size ≤ env.maxFileSize
    · rw [if_pos hsz] at h
      rcases List.mem_cons.mp h with h1 | h1
      · obtain rfl : u = f.uri := by injection h1
        exact ⟨f, List.mem_cons_self f rest, rfl, hsz⟩
      · rcases List.mem_cons.mp h1 with h2 | h2
        · exact Effect.noConfusion h2
        · rcases ih u h2 with ⟨g, hg, hrest⟩
          exact ⟨g, List.mem_cons_of_mem f hg, hrest⟩
    · rw [if_neg hsz] at h
      rcases ih u h with ⟨g, hg, hrest⟩
      exact ⟨g, List.mem_cons_of_mem f hg, hrest⟩

/-- Claim C1, amended: in both indexing runs, every file that is read (and
hence possibly submitted) is either within the configured size cap or —
in the full walk only — already present in the known-document snapshot
with modification time at or after the snapshot timestamp.  Consequently
a discovered file whose uri is NOT in the known set and whose size
exceeds the cap is never read; but the full walk applies no size check to
a known, changed file. -/
theorem sizeCap_amended :
    (∀ (env : IndexEnv) (restart indexing : Bool) (u : String),
        Effect.read u ∈ (Indexer.indexWorkspace restart indexing env).2.2 →
        ∃ f, f ∈ env.files ∧ f.uri = u ∧
          (f.size ≤ env.maxFileSize ∨
            (f.uri ∈ env.knownDocs ∧ env.timestamp ≤ f.modified))) ∧
    (∀ (env : IndexEnv) (fs : List FileInfo) (u : String),
        Effect.read u ∈ Indexer.indexFiles env fs →
        ∃ f, f ∈ fs ∧ f.uri = u ∧ f.size ≤ env.maxFileSize) := by
  constructor
  · intro env restart indexing u h
    unfold Indexer.indexWorkspace at h
    by_cases hd : (indexing && !restart) = true
    · rw [if_pos hd] at h
      simp at h
    · rw [if_neg hd] at h
      exact indexRun_read_mem env u h
  · exact indexFiles_read_mem

/-- Claim C1 counterexample environment: the engine already knows
`file:///w/big.php`; discovery returns it with modification time equal to
the snapshot timestamp and size 99, far above the 10-byte cap. -/
def envKnownBig : IndexEnv :=
  { knownDocs := ["file:///w/big.php"], timestamp := 100, maxFileSize := 10,
    files := [⟨"file:///w/big.php", 100, 99⟩],
    getDocument := fun _ => some "<?php big", discoverSymbols := fun _ => 5,
    cancelAt := none, elapsed := 0 }

/-- Claim C1 counterexample: a discovered file whose size (99) exceeds the
configured maximum (10), whose uri is in the known-document set and whose
modification time equals the snapshot timestamp, IS read and IS submitted
to the engine by `indexWorkspace`. -/
theorem sizeCap_cex :
    envKnownBig.files = [⟨"file:///w/big.php", 100, 99⟩] ∧
    envKnownBig.maxFileSize < 99 ∧
    Effect.read "file:///w/big.php" ∈
      (Indexer.indexWorkspace false false envKnownBig).2.2 ∧
    Effect.discover "file:///w/big.php" 5 ∈
      (Indexer.indexWorkspace false false envKnownBig).2.2 := by
  refine ⟨rfl, by decide, by decide, by decide⟩

/-- Witness instantiating `sizeCap_amended` at concrete inputs. -/
theorem sizeCap_amended_witness :
    (∃ f, f ∈ envKnownBig.files ∧ f.uri = "file:///w/big.php" ∧
      (f.size ≤ envKnownBig.maxFileSize ∨
        (f.uri ∈ envKnownBig.knownDocs ∧
          envKnownBig.timestamp ≤ f.modified))) ∧
    (∃ f, f ∈ [(⟨"file:///w/a.php", 0, 3⟩ : FileInfo)] ∧ f.uri = "file:///w/a.php" ∧
      f.size ≤ envKnownBig.maxFileSize) :=
  ⟨sizeCap_amended.1 envKnownBig false false "file:///w/big.php" (by decide),
   sizeCap_amended.2 envKnownBig [⟨"file:///w/a.php", 0, 3⟩] "file:///w/a.php"
     (by decide)⟩

/-- Claim C3: a run that starts and is never cancelled reports
`forgottenFileCount` equal to the size of `K \ D` (the known-document
snapshot minus the uris of the discovered files) and instructs the engine
to forget exactly the uris of `K \ D`. -/
theorem forgottenDiff (restart indexing : Bool) (env : IndexEnv)
    (hrun : (indexing && !restart) = false) (hc : env.cancelAt = none) :
    (Indexer.indexWorkspace restart indexing env).1.forgottenFileCount =
      ((jsSetOfList env.knownDocs).filter (notDiscovered env.files)).length ∧
    (Indexer.indexWorkspace restart indexing env).2.2.filter isForget =
      ((jsSetOfList env.knownDocs).filter (notDiscovered env.files)).map
        Effect.forget := by
  have hknown := runFiles_known_filter env hc env.files 0
    (jsSetOfList env.knownDocs) (jsSetOfList_nodup env.knownDocs)
  have hloopForget :
      (runFiles env env.files 0 (jsSetOfList env.knownDocs)).effects.filter
        isForget = [] := by
    rw [List.filter_eq_nil_iff]
    intro e he
    cases e with
    | queryKnownDocs => simp [isForget]
    | read u => simp [isForget]
    | discover u s => simp [isForget]
    | forget u =>
      exact absurd he (runFiles_no_forget env env.files 0
        (jsSetOfList env.knownDocs) u)
  have hcons : ∀ l : List Effect,
      (Effect.queryKnownDocs :: l).filter isForget = l.filter isForget :=
    fun l => by simp [List.filter_cons, isForget]
  have hfilters : ∀ l : List String,
      (l.map Effect.forget).filter isForget = l.map Effect.forget := fun l =>
    List.filter_eq_self.mpr fun e he => by
      rcases List.mem_map.mp he with ⟨x, _, rfl⟩
      rfl
  unfold Indexer.indexWorkspace
  rw [if_neg (by simp [hrun])]
  simp only [Indexer.indexRun, IndexEnv.cancelledAt_none hc, Bool.not_false,
    Bool.true_and]
  refine ⟨by rw [hknown], ?_⟩
  by_cases hlen :
      0 < (runFiles env env.files 0 (jsSetOfList env.knownDocs)).known.length
  · rw [if_pos (decide_eq_true hlen), hcons, List.filter_append, hloopForget,
      List.nil_append, hfilters, hknown]
  · have hnil : List.filter (notDiscovered env.files)
        (jsSetOfList env.knownDocs) = [] := by
      rw [← hknown]
      exact List.eq_nil_of_length_eq_zero (Nat.eq_zero_of_not_pos hlen)
    rw [if_neg (by simp [hlen]), hcons, List.filter_append, hloopForget, hnil]
    rfl

/-- Claim C3 witness environment: the engine knows two documents, one of
which (`gone.php`) is absent from discovery; the other is rediscovered
unchanged. -/
def envDiff : IndexEnv :=
  { knownDocs := ["file:///w/gone.php", "file:///w/keep.php"],
    timestamp := 10, maxFileSize := 1000000,
    files := [⟨"file:///w/keep.php", 3, 20⟩],
    getDocument := fun _ => some "<?php", discoverSymbols := fun _ => 2,
    cancelAt := none, elapsed := 1 }

/-- Witness instantiating `forgottenDiff` on `envDiff`. -/
theorem forgottenDiff_witness :
    ((false && !false) = false) ∧ (envDiff.cancelAt = none) ∧
    ((Indexer.indexWorkspace false false envDiff).1.forgottenFileCount =
      ((jsSetOfList envDiff.knownDocs).filter (notDiscovered envDiff.files)).length ∧
    (Indexer.indexWorkspace false false envDiff).2.2.filter isForget =
      ((jsSetOfList envDiff.knownDocs).filter (notDiscovered envDiff.files)).map
        Effect.forget) ∧
    ((jsSetOfList envDiff.knownDocs).filter (notDiscovered envDiff.files)) =
      ["file:///w/gone.php"] :=
  ⟨rfl, rfl, forgottenDiff false false envDiff rfl rfl, by decide⟩

/-! ### File discovery (workspace.ts) -/

/-- `Folder` from workspace.ts. -/
structure Folder where
  uri : String
  name : String
deriving Repr, DecidableEq

/-- A thrown JavaScript error value. -/
inductive JsError where
  | typeError (msg : String)
deriving Repr, DecidableEq

/-- The `TypeError` raised by reading a property of `undefined`: the
module executes under a `use strict` directive, so `this` inside the
free functions of the `FileSearchProvider` namespace is `undefined`. -/
def thisUndefinedError : JsError :=
  JsError.typeError "Cannot read property of undefined"

/-- Decidable equality of promise outcomes, for concrete evaluation. -/
instance {e a : Type} [DecidableEq e] [DecidableEq a] : DecidableEq (Except e a) :=
  fun x y =>
  match x, y with
  | Except.ok u, Except.ok v =>
    if h : u = v then isTrue (by rw [h]) else isFalse (fun he => h (by injection he))
  | Except.error u, Except.error v =>
    if h : u = v then isTrue (by rw [h]) else isFalse (fun he => h (by injection he))
  | Except.ok _, Except.error _ => isFalse (fun he => Except.noConfusion he)
  | Except.error _, Except.ok _ => isFalse (fun he => Except.noConfusion he)

namespace Workspace

/-- `uriScheme` (workspace.ts lines 58-61): the text before the first
colon (`uri.slice(0, colonPos)`), or the empty string when the uri has no
colon (`indexOf` returned -1). -/
def uriScheme (uri : String) : String :=
  if uri.toList.contains ':' then
    String.mk (uri.toList.takeWhile (fun c => c ≠ ':'))
  else ""

end Workspace

namespace FileSearchProvider

/-- `findFilesInFolder` (workspace.ts lines 238-306).  A non-`file`
scheme resolves to the empty list (line 241).  For the `file` scheme the
very next executed statement, `const cwd = LocalFileSystem.uriToPath(this.uri)`
at line 246, dereferences `this.uri` with `this === undefined` (strict
mode, plain function call), so the function throws a `TypeError` before
reading `composer.json` or running either glob pass; the remainder of the
function body (the vendor pass, the source pass and the `vendorGuard`
bookkeeping) is unreachable.  The `associations`, `exclude` and
`useComposerJson` arguments are therefore never consulted. -/
def findFilesInFolder (folderUri : String) (associations exclude : List String)
    (useComposerJson : Bool) : Except JsError (List FileInfo) :=
  if Workspace.uriScheme folderUri ≠ "file" then Except.ok []
  else Except.error thisUndefinedError

/-- `findFiles` (workspace.ts lines 141-154): sequentially awaits
`findFilesInFolder` for each folder, concatenating results; the first
rejection aborts the whole discovery. -/
def findFiles (folders : List Folder) (associations exclude : List String)
    (useComposerJson : Bool) : Except JsError (List FileInfo) :=
  match folders with
  | [] => Except.ok []
  | f :: rest =>
    match findFilesInFolder f.uri associations exclude useComposerJson with
    | Except.error e => Except.error e
    | Except.ok xs =>
      match findFiles rest associations exclude useComposerJson with
      | Except.error e => Except.error e
      | Except.ok ys => Except.ok (xs ++ ys)

end FileSearchProvider

/-- Environment of the composed run `indexWorkspace` + `Workspace.findFiles`
(claim C4): configured folders and config values plus the collaborators of
`IndexEnv`. -/
structure FullEnv where
  folders : List Folder
  associations : List String
  exclude : List String
  useComposerJson : Bool
  knownDocs : List String
  timestamp : Nat
  maxFileSize : Nat
  getDocument : String → Option String
  discoverSymbols : String → Nat
  cancelAt : Option Nat
  elapsed : Nat

namespace Indexer

/-- `indexWorkspace` composed with the real `Workspace.findFiles` of
workspace.ts instead of a discovery parameter.  The source (lines
503-511) pushes the default association `*.php` and dedupes via
`Array.from(new Set(...))` before calling `Workspace.findFiles`.  When
the discovery promise rejects, the awaiting `indexWorkspace` rejects as
well; by then it has already installed the cancellation handle (line 498)
and queried the engine's known documents (line 500). -/
def indexWorkspaceFull (restartIfInProgress indexing : Bool) (env : FullEnv) :
    Except JsError IndexResult × Bool × List Effect :=
  if indexing && !restartIfInProgress then (Except.ok declineResult, indexing, [])
  else
    match FileSearchProvider.findFiles env.folders
        (jsSetOfList (env.associations ++ ["*.php"])) env.exclude
        env.useComposerJson with
    | Except.error e => (Except.error e, true, [Effect.queryKnownDocs])
    | Except.ok files =>
      let ro := indexRun
        { knownDocs := env.knownDocs, timestamp := env.timestamp,
          maxFileSize := env.maxFileSize, files := files,
          getDocument := env.getDocument,
          discoverSymbols := env.discoverSymbols,
          cancelAt := env.cancelAt, elapsed := env.elapsed }
      (Except.ok ro.1, true, ro.2)

end Indexer

/-- Claim C4 environment: one local-scheme folder without a
`composer.json`, holding exactly two discoverable php files below the
size cap, both unknown to the engine. -/
def envScenarioC4 : FullEnv :=
  { folders := [⟨"file:///w/", "w"⟩], associations := [], exclude := [],
    useComposerJson := true, knownDocs := [], timestamp := 0,
    maxFileSize := 1000000,
    getDocument := fun u =>
      if u == "file:///w/a.php" || u == "file:///w/b.php" then some "<?php"
      else none,
    discoverSymbols := fun u => if u == "file:///w/a.php" then 3 else 4,
    cancelAt := none, elapsed := 12 }

/-- Claim C4 (code divergence): on the single-folder two-file scenario
the composed `indexWorkspace` does not return an `IndexResult` at all:
discovery throws the strict-mode `TypeError` of
`findFilesInFolder` (`this.uri` with `this` undefined) and the run
rejects. -/
theorem scenarioTwoFiles_rejects :
    (Indexer.indexWorkspaceFull false false envScenarioC4).1 =
      Except.error thisUndefinedError ∧
    (Indexer.indexWorkspaceFull false false envScenarioC4).2.2 =
      [Effect.queryKnownDocs] := by
  constructor <;> decide

/-- Claim C5 counterexample: for a local-scheme folder (with any
`composer.json` content, parseable or not), discovery with composer
integration enabled returns no sequence of `FileInfo` records at all —
it fails with the strict-mode `TypeError` — so it cannot return "the same
sequence of FileInfo records" as any other discovery mode. -/
theorem composerDiscovery_cex :
    FileSearchProvider.findFilesInFolder "file:///w/" ["*.php"] [] true =
      Except.error thisUndefinedError ∧
    FileSearchProvider.findFilesInFolder "file:///w/" ["*.php"] [] false =
      Except.error thisUndefinedError := by
  constructor <;> decide

/-- Claim C5 amended: for every folder, discovery with composer
integration enabled produces exactly the same outcome as with it
disabled — for a local-scheme folder both throw the same `TypeError`
before reaching the composer manifest, and for any other scheme both
return the empty sequence. -/
theorem composerDiscovery_amended (folderUri : String)
    (associations exclude : List String) :
    FileSearchProvider.findFilesInFolder folderUri associations exclude true =
      FileSearchProvider.findFilesInFolder folderUri associations exclude
        false := rfl

/-! ### Cache (cache.ts) -/

namespace Cache

/-- Collapse runs of repeated path separators; `prev` is the character
emitted last. -/
def collapseAux (prev : Option Char) : List Char → List Char
  | [] => []
  | c :: rest =>
    if c = '/' ∧ prev = some '/' then collapseAux prev rest
    else c :: collapseAux (some c) rest

/-- Model of the external Node `path.join` for POSIX arguments: the two
segments joined with a separator and duplicate separators collapsed.
The arguments produced by `Cache` contain no `.` or `..` segments, so
dot-normalization is not modelled. -/
def pathJoin (a b : String) : String :=
  if a = "" then b
  else if b = "" then a
  else String.mk (collapseAux none (a.toList ++ '/' :: b.toList))

/-- `Cache.prototype.pathFromKey` (cache.ts lines 104-106):
`path.join(this.dir, key + '.json')`. -/
def pathFromKey (dir key : String) : String := pathJoin dir (key ++ ".json")

/-- The path passed to `fs.remove` by `Cache.prototype.dispose` (cache.ts
lines 100-102): `this.pathFromKey(this.dir)`, i.e. `pathFromKey` applied
to the cache directory itself rather than the directory. -/
def disposeTarget (dir : String) : String := pathFromKey dir dir

/-- `fs.remove(root)` deletes exactly `root` and the paths below it:
`p` is removed iff it equals `root` or lies in its subtree. -/
def removes (root p : String) : Bool :=
  root == p || (root ++ "/").toList.isPrefixOf p.toList

/-- Outcome of the backing-file read stream and JSON parse behind
`Cache.prototype.get`: either the read stream emits an error (whose
optional `code` property models `err.code`), or the stream is parsed,
yielding the item list or a parse failure. -/
inductive ReadOutcome (a : Type) where
  | streamError (code : Option String)
  | parsedItems (items : List a)
  | parseError (msg : String)

/-- Rejection values of `Cache.prototype.get`: the raw error object from
the read stream, or the parse error message. -/
inductive GetError where
  | ioError (code : Option String)
  | parse (msg : String)
deriving Repr, DecidableEq

/-- `Cache.prototype.get` (cache.ts lines 66-94).  The read-stream error
handler rejects when `err.code !== 'ENOENT'` and otherwise resolves the
items collected so far — which are none, because no `data` event precedes
a failed open — so a missing file resolves to `[]`.  A successful stream
resolves the parsed items on `end`; a parse error rejects. -/
def get (a : Type) (outcome : ReadOutcome a) : Except GetError (List a) :=
  match outcome with
  | ReadOutcome.streamError code =>
    if code = some "ENOENT" then Except.ok []
    else Except.error (GetError.ioError code)
  | ReadOutcome.parsedItems items => Except.ok items
  | ReadOutcome.parseError msg => Except.error (GetError.parse msg)

/-- Promise settled successfully? -/
def resolved {e a : Type} : Except e a → Bool
  | Except.ok _ => true
  | Except.error _ => false

end Cache

/-- Claim C8 (code divergence): `dispose` of a cache rooted at
`/data/cache` removes `/data/cache/data/cache.json` — not the cache
directory — and removing that path cannot delete the backing file
`/data/cache/k.json` of a key `k` previously written, nor the directory
itself. -/
theorem dispose_misses_directory :
    Cache.disposeTarget "/data/cache" = "/data/cache/data/cache.json" ∧
    Cache.disposeTarget "/data/cache" ≠ "/data/cache" ∧
    Cache.pathFromKey "/data/cache" "k" = "/data/cache/k.json" ∧
    Cache.removes (Cache.disposeTarget "/data/cache")
      (Cache.pathFromKey "/data/cache" "k") = false ∧
    Cache.removes (Cache.disposeTarget "/data/cache") "/data/cache" = false := by
  refine ⟨by decide, by decide, by decide, by decide, by decide⟩

/-- Claim C9: a missing backing file (read error with code `ENOENT`)
makes `get` resolve to the empty sequence; a stream error with any other
code — including an absent code — rejects, and a parse error rejects. -/
theorem cacheGet_missing_file (a : Type) (code : Option String) (msg : String) :
    Cache.get a (Cache.ReadOutcome.streamError (some "ENOENT")) =
      Except.ok [] ∧
    (code ≠ some "ENOENT" →
      Cache.resolved (Cache.get a (Cache.ReadOutcome.streamError code)) =
        false) ∧
    Cache.resolved (Cache.get a (Cache.ReadOutcome.parseError msg)) = false := by
  refine ⟨rfl, fun hc => ?_, rfl⟩
  rw [Cache.get, if_neg hc]
  rfl

/-- Witness instantiating `cacheGet_missing_file` with a concrete type and
a concrete non-ENOENT error code. -/
theorem cacheGet_missing_file_witness :
    Cache.get Nat (Cache.ReadOutcome.streamError (some "ENOENT")) =
      Except.ok [] ∧
    Cache.resolved (Cache.get Nat (Cache.ReadOutcome.streamError
      (some "EACCES"))) = false ∧
    Cache.resolved (Cache.get Nat (Cache.ReadOutcome.parseError "bad json")) =
      false :=
  ⟨(cacheGet_missing_file Nat (some "EACCES") "bad json").1,
   (cacheGet_missing_file Nat (some "EACCES") "bad json").2.1 (by decide),
   (cacheGet_missing_file Nat (some "EACCES") "bad json").2.2⟩

/-! ### LocalFileSystem (workspace.ts lines 386-481)

JavaScript strings are embedded as `List Char`; the host builtins
`encodeURI` and `decodeURI` are modelled executably below. -/

def isAsciiLetter (c : Char) : Bool :=
  ('a' ≤ c && c ≤ 'z') || ('A' ≤ c && c ≤ 'Z')

/-- The characters the ECMAScript `encodeURI` builtin leaves unchanged:
letters, digits, the marks `- _ . ! ~ * ( )` and the apostrophe, the
reserved set `; / ? : @ & = + $ ,` and the hash sign (listed by their
character codes). -/
def uriSafe (c : Char) : Bool :=
  isAsciiLetter c || ('0' ≤ c && c ≤ '9') ||
    [45, 95, 46, 33, 126, 42, 39, 40, 41, 59, 47, 63, 58, 64, 38, 61, 43,
      36, 44, 35].contains c.toNat

/-- UTF-8 bytes of a code point (for the escape sequences of
`encodeURI`). -/
def utf8Bytes (c : Char) : List Nat :=
  let n := c.toNat
  if n < 128 then [n]
  else if n < 2048 then [192 + n / 64, 128 + n % 64]
  else if n < 65536 then [224 + n / 4096, 128 + n / 64 % 64, 128 + n % 64]
  else [240 + n / 262144, 128 + n / 4096 % 64, 128 + n / 64 % 64,
    128 + n % 64]

def hexDigitChar (n : Nat) : Char :=
  if n < 10 then Char.ofNat (48 + n) else Char.ofNat (55 + n)

def concatLists : List (List Char) → List Char
  | [] => []
  | a :: r => a ++ concatLists r

def encodeChar (c : Char) : List Char :=
  if uriSafe c then [c]
  else concatLists ((utf8Bytes c).map
    (fun b => ['%', hexDigitChar (b / 16), hexDigitChar (b % 16)]))

/-- Model of the `encodeURI` host builtin: safe characters are copied,
all others are percent-escaped per UTF-8 byte. -/
def jsEncodeURI (l : List Char) : List Char := concatLists (l.map encodeChar)

def hexVal (c : Char) : Nat :=
  if '0' ≤ c && c ≤ '9' then c.toNat - 48
  else if 'A' ≤ c && c ≤ 'F' then c.toNat - 55
  else if 'a' ≤ c && c ≤ 'f' then c.toNat - 87
  else 0

/-- ASCII-range model of the `decodeURI` host builtin: each `%XY` escape
becomes the character with code `16*X+Y`, other characters are copied.
(Multi-byte escape reassembly and the preservation of escaped reserved
characters are not modelled; the theorems below apply the function only
to strings without any `%`.) -/
def jsDecodeURI : List Char → List Char
  | [] => []
  | '%' :: a :: b :: rest2 =>
    Char.ofNat (16 * hexVal a + hexVal b) :: jsDecodeURI rest2
  | c :: rest => c :: jsDecodeURI rest

namespace LocalFileSystem

/-- The scheme prefix `file://` as written at workspace.ts lines 449
and 457. -/
def fileScheme : List Char := ['f', 'i', 'l', 'e', ':', '/', '/']

/-- `SLASH_DRIVE_PATTERN = /^\/[a-zA-Z]:/` (workspace.ts line 29). -/
def slashDriveTest (l : List Char) : Bool :=
  match l with
  | '/' :: c :: ':' :: _ => isAsciiLetter c
  | _ => false

/-- `DRIVE_PATTERN = /^[a-zA-Z]:/` (workspace.ts line 30). -/
def driveTest (l : List Char) : Bool :=
  match l with
  | c :: ':' :: _ => isAsciiLetter c
  | _ => false

def backslash : Char := Char.ofNat 92

/-- `filepath.replace(/\\/g, '/')`, applied only on Windows
(workspace.ts lines 419-421). -/
def winSlashes (windows : Bool) (l : List Char) : List Char :=
  if windows then l.map (fun c => if c = backslash then '/' else c) else l

/-- `filepath.replace(/\//g, '\\')`, applied only on Windows
(workspace.ts lines 470-472). -/
def winBackslashes (windows : Bool) (l : List Char) : List Char :=
  if windows then l.map (fun c => if c = '/' then backslash else c) else l

/-- The UNC drive-lowercasing step of `pathToUri` (workspace.ts lines
435-437). -/
def lowerSlashDrive (uriPath : List Char) : List Char :=
  if slashDriveTest uriPath then
    match uriPath with
    | a :: b :: r => a :: b.toLower :: r
    | l => l
  else uriPath

/-- The UNC branch of `pathToUri` (workspace.ts lines 426-438):
`i = filepath.indexOf('/', 2)`; if absent, authority is everything after
the two slashes and the uri path is `/`; otherwise authority is
`slice(2, i)` and the path `slice(i)` with a slash-drive lowercased. -/
def pathToUriUNC (fp : List Char) : List Char :=
  match (fp.drop 2).findIdx? (fun c => c = '/') with
  | none => jsEncodeURI (fileScheme ++ fp.drop 2 ++ ['/'])
  | some j =>
    jsEncodeURI (fileScheme ++ (fp.drop 2).take j ++
      lowerSlashDrive ((fp.drop 2).drop j))

/-- The drive-letter branch of `pathToUri` (workspace.ts lines 442-443):
`'/' + filepath[0].toLowerCase() + filepath.slice(1)`. -/
def pathToUriDrive (fp : List Char) : List Char :=
  match fp with
  | a :: r => jsEncodeURI (fileScheme ++ '/' :: a.toLower :: r)
  | [] => []

/-- The branch chain of `pathToUri` after the backslash replacement
(workspace.ts lines 426-449), ending in
`encodeURI('file://' + uriAuth + uriPath)`; a relative path (no leading
slash, no drive letter) yields the empty string (lines 444-446). -/
def pathToUriSlashes (fp : List Char) : List Char :=
  if 1 < fp.length ∧ fp.headD ' ' = '/' ∧ (fp.drop 1).headD ' ' = '/' then
    pathToUriUNC fp
  else if fp.headD ' ' = '/' then jsEncodeURI (fileScheme ++ fp)
  else if driveTest fp then pathToUriDrive fp
  else []

/-- `LocalFileSystem.pathToUri` (workspace.ts lines 413-451): empty input
yields the empty string (the `!filepath` guard), then backslash
normalization on Windows, then the branch chain. -/
def pathToUri (windows : Bool) (filepath : List Char) : List Char :=
  if filepath.isEmpty then []
  else pathToUriSlashes (winSlashes windows filepath)

/-- The body of `uriToPath` after decoding (workspace.ts lines 457-474):
require the `file://` prefix and length at least 8, drop the prefix, then
strip the slash of a `/X:` drive path, or restore `//` for a UNC
authority, then slash-to-backslash on Windows. -/
def uriToPathDecoded (windows : Bool) (fp : List Char) : List Char :=
  if fp.take 7 = fileScheme ∧ 8 ≤ fp.length then
    winBackslashes windows
      (if slashDriveTest (fp.drop 7) then (fp.drop 7).drop 1
       else if (fp.drop 7).headD ' ' ≠ '/' then '/' :: '/' :: fp.drop 7
       else fp.drop 7)
  else []

/-- `LocalFileSystem.uriToPath` (workspace.ts lines 453-475):
`decodeURI` then the decoded-path analysis. -/
def uriToPath (windows : Bool) (uri : List Char) : List Char :=
  uriToPathDecoded windows (jsDecodeURI uri)

end LocalFileSystem

theorem uriSafe_ne_pct {c : Char} (h : uriSafe c = true) : c ≠ '%' := by
  intro he
  subst he
  exact absurd h (by decide)

theorem jsEncodeURI_safe (l : List Char) (h : ∀ c ∈ l, uriSafe c = true) :
    jsEncodeURI l = l := by
  induction l with
  | nil => rfl
  | cons c rest ih =>
    have hc : uriSafe c = true := h c (List.mem_cons_self c rest)
    have hr : jsEncodeURI rest = rest :=
      ih fun x hx => h x (List.mem_cons_of_mem c hx)
    calc jsEncodeURI (c :: rest) = encodeChar c ++ jsEncodeURI rest := rfl
    _ = [c] ++ jsEncodeURI rest := by rw [encodeChar, if_pos hc]
    _ = c :: rest := by rw [hr]; rfl

theorem jsDecodeURI_no_pct (l : List Char) (h : ∀ c ∈ l, c ≠ '%') :
    jsDecodeURI l = l := by
  induction l with
  | nil => rfl
  | cons c rest ih =>
    have hc : c ≠ '%' := h c (List.mem_cons_self c rest)
    have hr : jsDecodeURI rest = rest :=
      ih fun x hx => h x (List.mem_cons_of_mem c hx)
    cases rest with
    | nil => simp [jsDecodeURI, hc]
    | cons d t =>
      cases t with
      | nil => simp [jsDecodeURI, hc, hr]
      | cons e t2 => simp [jsDecodeURI, hc, hr]

theorem fileScheme_safe : ∀ c ∈ LocalFileSystem.fileScheme, uriSafe c = true := by
  decide

/-- Claim C10, amended: on a non-Windows platform the round trip
`uriToPath ∘ pathToUri` is the identity on non-empty absolute POSIX paths
that start with `/` but not `//`, are NOT of the slash-drive form
`/X:...` (X an ASCII letter), and consist of characters `encodeURI`
leaves unchanged; and `pathToUri` of a relative path (no leading slash,
no leading drive letter) is the empty string. -/
theorem pathUri_roundtrip :
    (∀ p : List Char, p ≠ [] → p.headD ' ' = '/' → p.take 2 ≠ ['/', '/'] →
      LocalFileSystem.slashDriveTest p = false →
      (∀ c ∈ p, uriSafe c = true) →
      LocalFileSystem.uriToPath false (LocalFileSystem.pathToUri false p) = p) ∧
    (∀ q : List Char, q.headD ' ' ≠ '/' → LocalFileSystem.driveTest q = false →
      LocalFileSystem.pathToUri false q = []) := by
  constructor
  · intro p hne hhead htake2 hsd hsafe
    have hsafeAll : ∀ c ∈ LocalFileSystem.fileScheme ++ p, uriSafe c = true := by
      intro c hc
      rcases List.mem_append.mp hc with hc1 | hc1
      · exact fileScheme_safe c hc1
      · exact hsafe c hc1
    have hnopct : ∀ c ∈ LocalFileSystem.fileScheme ++ p, c ≠ '%' :=
      fun c hc => uriSafe_ne_pct (hsafeAll c hc)
    have henc : LocalFileSystem.pathToUri false p =
        LocalFileSystem.fileScheme ++ p := by
      cases p with
      | nil => exact absurd rfl hne
      | cons hd tl =>
        have hhd : hd = '/' := by simpa using hhead
        subst hhd
        have h3 : (('/' :: tl).drop 1).headD ' ' ≠ '/' := by
          cases tl with
          | nil => decide
          | cons c t =>
            intro hcc
            apply htake2
            simp only [List.drop_succ_cons, List.drop_zero, List.headD_cons]
              at hcc
            simp [List.take, hcc]
        rw [LocalFileSystem.pathToUri, if_neg (by simp)]
        rw [show LocalFileSystem.winSlashes false ('/' :: tl) = '/' :: tl
          from rfl]
        rw [LocalFileSystem.pathToUriSlashes]
        rw [if_neg (fun hcond => h3 hcond.2.2)]
        rw [if_pos (by simp : (('/' :: tl).headD ' ' = '/'))]
        exact jsEncodeURI_safe _ hsafeAll
    rw [henc, LocalFileSystem.uriToPath, jsDecodeURI_no_pct _ hnopct]
    rw [LocalFileSystem.uriToPathDecoded]
    have htake : (LocalFileSystem.fileScheme ++ p).take 7 =
        LocalFileSystem.fileScheme := List.take_left LocalFileSystem.fileScheme p
    have hdrop : (LocalFileSystem.fileScheme ++ p).drop 7 = p :=
      List.drop_left LocalFileSystem.fileScheme p
    have hlen : 8 ≤ (LocalFileSystem.fileScheme ++ p).length := by
      have h7 : LocalFileSystem.fileScheme.length = 7 := rfl
      have h1 : 1 ≤ p.length := List.length_pos.mpr hne
      rw [List.length_append, h7]
      omega
    rw [if_pos ⟨htake, hlen⟩, hdrop]
    rw [if_neg (by simp [hsd])]
    rw [if_neg (fun hcc => hcc hhead)]
    rfl
  · intro q hhead hdrive
    cases q with
    | nil => rfl
    | cons c t =>
      rw [LocalFileSystem.pathToUri, if_neg (by simp)]
      rw [show LocalFileSystem.winSlashes false (c :: t) = c :: t from rfl]
      rw [LocalFileSystem.pathToUriSlashes]
      rw [if_neg (fun hcond => hhead hcond.2.1)]
      rw [if_neg hhead]
      rw [if_neg (by simp [hdrive])]

/-- Claim C10 counterexample: the absolute POSIX path `/c:/x` — non-empty,
starting with `/` but not `//`, all characters untouched by `encodeURI` —
does not survive the round trip: `uriToPath` takes it for a Windows
slash-drive path and strips the leading slash. -/
theorem pathUri_roundtrip_cex :
    (['/', 'c', ':', '/', 'x'] : List Char) ≠ [] ∧
    (['/', 'c', ':', '/', 'x'].headD ' ' = '/') ∧
    (['/', 'c', ':', '/', 'x'].take 2 ≠ ['/', '/']) ∧
    (∀ c ∈ (['/', 'c', ':', '/', 'x'] : List Char), uriSafe c = true) ∧
    LocalFileSystem.uriToPath false
        (LocalFileSystem.pathToUri false ['/', 'c', ':', '/', 'x']) =
      ['c', ':', '/', 'x'] ∧
    LocalFileSystem.uriToPath false
        (LocalFileSystem.pathToUri false ['/', 'c', ':', '/', 'x']) ≠
      ['/', 'c', ':', '/', 'x'] := by
  refine ⟨by decide, by decide, by decide, by decide, by decide, by decide⟩

/-- Witness instantiating `pathUri_roundtrip` at `/a` and at the relative
path `a`. -/
theorem pathUri_roundtrip_witness :
    LocalFileSystem.uriToPath false (LocalFileSystem.pathToUri false
      ['/', 'a']) = ['/', 'a'] ∧
    LocalFileSystem.pathToUri false ['a'] = [] :=
  ⟨pathUri_roundtrip.1 ['/', 'a'] (by decide) (by decide) (by decide)
      (by decide) (by decide),
   pathUri_roundtrip.2 ['a'] (by decide) (by decide)⟩
